import Mathlib

/-!
Verification of the hypetrigger ffmpeg pipeline (src/lib-rust/src/ffmpeg.rs).

The Rust source drives an ffmpeg subprocess: it assembles a filter graph and
argument list (`spawn_ffmpeg_childprocess`), demultiplexes the subprocess's
stdout byte stream into per-trigger frames and dispatches each frame
(`spawn_ffmpeg_stdout_thread` / `on_ffmpeg_stdout`), and pumps stop commands
to the subprocess's stdin (`spawn_ffmpeg_stdin_thread`).

This file gives a shallow embedding of those functions and proves the spec's
claims about them.  Machine integers are modelled as `Nat` with an explicit
`% 2 ^ 32` where u32 multiplication can wrap; byte streams are `List Nat`;
f64 crop percentages are modelled as exact rationals (the claims under study
do not depend on float rounding); fallible I/O is modelled by explicit
success parameters and explicit exit outcomes.
-/

set_option autoImplicit false

namespace Hypetrigger

/-- Modelled from the spec: the crop rectangle of a trigger
(crate::trigger::Trigger, not under src/; the fields are exactly the ones
ffmpeg.rs reads: `xPercent`, `yPercent`, `widthPercent`, `heightPercent`
(f64 percentages of frame size, modelled as rationals) and `width`, `height`
(resolved pixel dimensions, u32, modelled as Nat). -/
structure Crop where
  xPercent : ℚ
  yPercent : ℚ
  widthPercent : ℚ
  heightPercent : ℚ
  width : ℕ
  height : ℕ
deriving DecidableEq, Repr

/-- Modelled from the spec: a trigger descriptor (crate::trigger::Trigger,
not under src/).  ffmpeg.rs accesses it only through `get_crop()`,
`get_id()`, `get_debug()` and `get_runner_type()`; we model that interface
as a record. -/
structure Trigger where
  id : String
  crop : Crop
  runner_type : String
  debug : Bool
deriving DecidableEq, Repr

/-- Modelled from the spec: the logging flag set (crate::logging::LoggingConfig,
not under src/); ffmpeg.rs reads the four flags below. -/
structure LoggingConfig where
  debug_ffmpeg : Bool
  debug_buffer_allocation : Bool
  debug_buffer_transfer : Bool
  debug_thread_exit : Bool
deriving DecidableEq, Repr

/-- Modelled from the spec: the configuration (crate::config::HypetriggerConfig,
not under src/); ffmpeg.rs reads `inputPath`, `samplesPerSecond` (f64,
modelled as a rational), the ordered `triggers` list and `logging`. -/
structure HypetriggerConfig where
  inputPath : String
  samplesPerSecond : ℚ
  triggers : List Trigger
  logging : LoggingConfig
deriving DecidableEq, Repr

/-- Scratch-buffer size for one trigger, ffmpeg.rs:198-201:
`let buf_size = (width * height * CHANNELS) as usize` with `CHANNELS = 3`.
The multiplication is performed in u32, so it is taken `% 2 ^ 32`
(release-mode wrap; the claims' configurations stay far below the bound). -/
def bufSize (t : Trigger) : ℕ :=
  t.crop.width * t.crop.height * 3 % 2 ^ 32

/-- The per-trigger buffer sizes, in trigger order (ffmpeg.rs:196-210). -/
def bufSizes (cfg : HypetriggerConfig) : List ℕ :=
  cfg.triggers.map bufSize

/-- How the read loop of `spawn_ffmpeg_stdout_thread` ends
(ffmpeg.rs:212-231). -/
inductive DemuxExit where
  /-- `read_exact` returned `Err` because the stream ended: the `while`
  condition turns false and the loop exits normally (ffmpeg.rs:215-218). -/
  | eof
  /-- `buffers[cur_frame % num_triggers]` with `num_triggers = 0`: the Rust
  remainder-by-zero panics (and the index would be out of bounds), killing
  the thread (ffmpeg.rs:216). -/
  | panicModZero
  /-- `tx.send(..).expect("send image buffer")` failed inside
  `on_ffmpeg_stdout` (ffmpeg.rs:275-276): the panic unwinds the demuxer
  thread. -/
  | panicSend
  /-- Fuel exhausted (model artefact only; theorems always supply enough
  fuel for the given stream). -/
  | outOfFuel
deriving DecidableEq, Repr

/-- The read loop of `spawn_ffmpeg_stdout_thread`, ffmpeg.rs:212-231.

State per iteration: the frame counter `cur_frame` (`f`) and the not yet
consumed part of the stdout stream.  Each iteration computes
`i = cur_frame % num_triggers` (panics when `num_triggers = 0`), attempts
`read_exact` of `sizes[i]` bytes (success iff that many bytes remain),
clones the buffer and hands it to `on_ffmpeg_stdout`, whose
`tx.send(..).expect(..)` is modelled by the `send` success predicate on the
frame counter.  The result is the list of dispatched frames
`(trigger index, frame bytes)` in dispatch order, plus how the loop ended.
`fuel` bounds the number of iterations; every theorem instantiates it large
enough that `outOfFuel` is unreachable. -/
def ffmpegStdoutLoop (sizes : List ℕ) (send : ℕ → Bool) :
    ℕ → ℕ → List ℕ → List (ℕ × List ℕ) × DemuxExit
  | 0, _, _ => ([], .outOfFuel)
  | fuel + 1, f, stream =>
    if sizes.length = 0 then ([], .panicModZero)
    else
      let sz := sizes.getD (f % sizes.length) 0
      if sz ≤ stream.length then
        if send f then
          let r := ffmpegStdoutLoop sizes send fuel (f + 1) (stream.drop sz)
          ((f % sizes.length, stream.take sz) :: r.1, r.2)
        else ([], .panicSend)
      else ([], .eof)

/-- One run of the stdout demuxer thread (ffmpeg.rs:186-237) on a complete
input stream, with every worker enqueue succeeding. -/
def spawn_ffmpeg_stdout_run (cfg : HypetriggerConfig) (stream : List ℕ) :
    List (ℕ × List ℕ) × DemuxExit :=
  ffmpegStdoutLoop (bufSizes cfg) (fun _ => true) (stream.length + 1) 0 stream

/-! ### Storage-instrumented demuxer (for the buffer-isolation claim)

The same loop again, this time with the storage of every byte buffer made
explicit, so that the aliasing facts of ffmpeg.rs become statable:
scratch buffer `i` (allocated once at ffmpeg.rs:209, `buffers.push(vec![..])`)
lives at heap address `i < num_triggers`; `read_exact` overwrites that
address in place; `let clone = buffers[i].clone(); Arc::new(clone)`
(ffmpeg.rs:220-221) allocates a fresh address, copies the scratch bytes into
it, and the dispatched frame keeps that address forever. -/

/-- A heap of byte buffers: address to contents (unallocated reads as `[]`),
plus the next fresh address. -/
structure HeapState where
  heap : ℕ → List ℕ
  nextAlloc : ℕ

/-- Point update of a heap. -/
def hupd (h : ℕ → List ℕ) (a : ℕ) (v : List ℕ) : ℕ → List ℕ :=
  fun b => if b = a then v else h b

/-- The heap after the buffer-allocation loop of ffmpeg.rs:196-210: scratch
buffer `i` holds `vec![0; sizes[i]]` at address `i`; everything else is
unallocated. -/
def initHeap (sizes : List ℕ) : ℕ → List ℕ :=
  fun a => if a < sizes.length then List.replicate (sizes.getD a 0) 0 else []

/-- The read loop of ffmpeg.rs:212-231 with explicit storage (see above).
Dispatched records are `(trigger index, address, bytes at dispatch time)`. -/
def ffmpegStdoutLoopHeap (sizes : List ℕ) :
    ℕ → ℕ → List ℕ → HeapState → List (ℕ × ℕ × List ℕ) × HeapState × DemuxExit
  | 0, _, _, st => ([], st, .outOfFuel)
  | fuel + 1, f, stream, st =>
    if sizes.length = 0 then ([], st, .panicModZero)
    else
      let i := f % sizes.length
      let sz := sizes.getD i 0
      if sz ≤ stream.length then
        let h1 := hupd st.heap i (stream.take sz)
        let a := st.nextAlloc
        let h2 := hupd h1 a (h1 i)
        let r := ffmpegStdoutLoopHeap sizes fuel (f + 1) (stream.drop sz) ⟨h2, a + 1⟩
        ((i, a, h1 i) :: r.1, r.2)
      else ([], st, .eof)

/-- One storage-instrumented run of the stdout demuxer thread. -/
def spawn_ffmpeg_stdout_run_heap (cfg : HypetriggerConfig) (stream : List ℕ) :
    List (ℕ × ℕ × List ℕ) × HeapState × DemuxExit :=
  ffmpegStdoutLoopHeap (bufSizes cfg) (stream.length + 1) 0 stream
    ⟨initHeap (bufSizes cfg), (bufSizes cfg).length⟩

/-! ### Filter graph and argument list (`spawn_ffmpeg_childprocess`) -/

/-- One crop stage of the filter graph, as formatted at ffmpeg.rs:78-84:

`[in{i}]crop=round(in_w*{w}):round(in_h*{h}):round(in_w*{x}):round(in_h*{y})[out{i}]`

The four numeric operands are, in this order, `widthPercent / 100`,
`heightPercent / 100`, `xPercent / 100`, `yPercent / 100` of the trigger
(ffmpeg.rs:73-76); the division by the f64 literal `100.0` is modelled as
exact rational division. -/
structure CropStage where
  inPort : ℕ
  w : ℚ
  h : ℚ
  x : ℚ
  y : ℚ
  outPort : ℕ
deriving DecidableEq, Repr

/-- The crop stage emitted for trigger `t` at loop index `i`
(ffmpeg.rs:71-88). -/
def cropStage (i : ℕ) (t : Trigger) : CropStage :=
  { inPort := i
  , w := t.crop.widthPercent / 100
  , h := t.crop.heightPercent / 100
  , x := t.crop.xPercent / 100
  , y := t.crop.yPercent / 100
  , outPort := i }

/-- The crop stages pushed by the `for i in 0..num_triggers` loop of
ffmpeg.rs:71-88, starting at loop index `a`. -/
def cropStages : List Trigger → ℕ → List CropStage
  | [], _ => []
  | t :: ts, a => cropStage a t :: cropStages ts (a + 1)

/-- The whole `filter_complex` string of ffmpeg.rs:65-88, structurally:
the `[0:v]fps={samplesPerSecond},split={num_triggers}` head with its
`[in0][in1]…` labels, then one crop stage per trigger. -/
structure FilterComplex where
  fps : ℚ
  split : ℕ
  inPorts : List ℕ
  stages : List CropStage
deriving DecidableEq, Repr

/-- The filter graph generated for a configuration (ffmpeg.rs:65-88). -/
def spawn_ffmpeg_filter_complex (cfg : HypetriggerConfig) : FilterComplex :=
  { fps := cfg.samplesPerSecond
  , split := cfg.triggers.length
  , inPorts := List.range cfg.triggers.length
  , stages := cropStages cfg.triggers 0 }

/-- One argument of the assembled ffmpeg command line.  Literal strings are
kept verbatim; the `[out{i}]` label, numeric arguments and the rendered
filter graph are kept structurally. -/
inductive Arg where
  | lit (s : String)
  | outLabel (i : ℕ)
  | num (n : ℕ)
  | graph (g : FilterComplex)
deriving DecidableEq, Repr

/-- The `-map "[out{i}]"` argument pairs added by the loop at
ffmpeg.rs:109-111, one pair per trigger, in trigger order. -/
def mapArgs : ℕ → List Arg
  | 0 => []
  | n + 1 => mapArgs n ++ [.lit "-map", .outLabel n]

/-- Discriminator: is this argument an `[out{i}]` output-port label? -/
def Arg.isOutLabel : Arg → Bool
  | .outLabel _ => true
  | _ => false

/-- The arguments added before the `-map` loop (ffmpeg.rs:101-107). -/
def preArgs (cfg : HypetriggerConfig) : List Arg :=
  [.lit "-hwaccel", .lit "auto", .lit "-i", .lit cfg.inputPath,
   .lit "-filter_complex", .graph (spawn_ffmpeg_filter_complex cfg)]

/-- The arguments added after the `-map` loop (ffmpeg.rs:113-122). -/
def postArgs : List Arg :=
  [.lit "-vsync", .lit "drop", .lit "-f", .lit "rawvideo",
   .lit "-pix_fmt", .lit "rgb24", .lit "-an", .lit "-y", .lit "pipe:1"]

/-- The full argument list assembled by `spawn_ffmpeg_childprocess`
(ffmpeg.rs:101-122) in source order. -/
def spawn_ffmpeg_args (cfg : HypetriggerConfig) : List Arg :=
  preArgs cfg ++ (mapArgs cfg.triggers.length ++ postArgs)

/-- What `spawn_ffmpeg_childprocess` produces before the OS spawn call
(ffmpeg.rs:57-127).  The source assembles the filter graph and argument
list unconditionally: it contains no validation branch and no
`InvalidGraphError` value, so the only constructor it ever produces is
`spawnArgs`.  The `invalidGraph` constructor exists solely so the spec's
error-handling claim can be stated against this model. -/
inductive PreSpawn where
  | invalidGraph (msg : String)
  | spawnArgs (args : List Arg)
deriving DecidableEq, Repr

/-- Discriminator: did the pre-spawn phase report an invalid graph? -/
def PreSpawn.isInvalidGraph : PreSpawn → Bool
  | .invalidGraph _ => true
  | .spawnArgs _ => false

/-- The pre-spawn phase of `spawn_ffmpeg_childprocess` (ffmpeg.rs:57-127):
the argument list is built unconditionally and handed to `Command::spawn`. -/
def spawn_ffmpeg_prespawn (cfg : HypetriggerConfig) : PreSpawn :=
  .spawnArgs (spawn_ffmpeg_args cfg)

/-- Follows the spec's words (spec §4.1): a crop rectangle is degenerate
when a dimension is ≤ 0 or a percentage lies outside [0,100].  Stated here
only so the claim about `InvalidGraphError` can be formalised; the source
contains no such check. -/
def degenerateCrop (c : Crop) : Bool :=
  decide (c.widthPercent ≤ 0) || decide (c.heightPercent ≤ 0)
  || decide (c.widthPercent > 100) || decide (c.heightPercent > 100)
  || decide (c.xPercent < 0) || decide (c.xPercent > 100)
  || decide (c.yPercent < 0) || decide (c.yPercent > 100)

/-- The token-level rendering printed by the debug block of
ffmpeg.rs:130-141 (`println!("[ffmpeg] debug command:")` and the lines that
follow): a shell-style command whose tokens are transcribed here one by
one.  Note it is not the spawned argument list: it has `-vframes
{num_triggers * 5}` and a `scripts/frame%03d.bmp` output in place of the
spawned command's `-f rawvideo -pix_fmt rgb24 … pipe:1` tail. -/
def debugRenderedArgs (cfg : HypetriggerConfig) : List Arg :=
  [.lit "ffmpeg", .lit "-hwaccel", .lit "auto", .lit "-i", .lit cfg.inputPath,
   .lit "-filter_complex", .graph (spawn_ffmpeg_filter_complex cfg)]
  ++ (mapArgs cfg.triggers.length
      ++ [.lit "-vsync", .lit "drop", .lit "-vframes",
          .num (cfg.triggers.length * 5),
          .lit "-an", .lit "-y", .lit "scripts/frame%03d.bmp"])

/-- The observable events of `spawn_ffmpeg_childprocess`, in source order. -/
inductive SpawnEvent where
  /-- `println!("[ffmpeg] exe: {}")` (ffmpeg.rs:97-99), debug only. -/
  | printExe (path : String)
  /-- The `cmd.spawn()` call (ffmpeg.rs:113-127). -/
  | spawnProc (args : List Arg)
  /-- The debug command rendering (ffmpeg.rs:129-142), debug only. -/
  | printCommand (args : List Arg)
deriving DecidableEq, Repr

/-- The event trace of one call of `spawn_ffmpeg_childprocess`
(ffmpeg.rs:57-145).  `exePath` is the resolved ffmpeg executable path
(computed from the environment at ffmpeg.rs:90-95). -/
def spawn_ffmpeg_events (cfg : HypetriggerConfig) (exePath : String) :
    List SpawnEvent :=
  (if cfg.logging.debug_ffmpeg then [.printExe exePath] else [])
  ++ [.spawnProc (spawn_ffmpeg_args cfg)]
  ++ (if cfg.logging.debug_ffmpeg then [.printCommand (debugRenderedArgs cfg)] else [])

/-! ### Stdin pump (`spawn_ffmpeg_stdin_thread`) -/

/-- The command queue alphabet of the stdin pump (ffmpeg.rs:16-18). -/
inductive FfmpegStdinCommand where
  | stop
deriving DecidableEq, Repr

/-- How the stdin pump thread ends (ffmpeg.rs:279-298). -/
inductive StdinExit where
  /-- `rx.recv()` returned `Err`: the queue was closed; the `while let`
  loop ends normally. -/
  | queueClosed
  /-- `stdin.write_all(b"q").expect("write to ffmpeg stdin")` failed: the
  panic unwinds this thread only. -/
  | panicWrite
deriving DecidableEq, Repr

/-- The loop of `spawn_ffmpeg_stdin_thread` (ffmpeg.rs:285-292): receive
commands until the queue closes; on `Stop`, `write_all(b"q")` writes the
single byte `q` (0x71 = 113, no newline) to the subprocess stdin, panicking
on failure.  `writeOk n` tells whether the `n`-th write succeeds (a failed
write emits nothing).  Returns the bytes written, in order, and the exit. -/
def spawn_ffmpeg_stdin_loop (writeOk : ℕ → Bool) :
    List FfmpegStdinCommand → ℕ → List ℕ × StdinExit
  | [], _ => ([], .queueClosed)
  | .stop :: rest, n =>
    if writeOk n then
      let r := spawn_ffmpeg_stdin_loop writeOk rest (n + 1)
      (113 :: r.1, r.2)
    else ([], .panicWrite)

/-! ### Small-step presentation of the demux loop (for determinism)

The loop of ffmpeg.rs:212-231 presented as a transition relation on its
mutable state, to state that the dispatch trace is a function of the
configuration and the stream alone. -/

/-- The mutable state of the stdout demux loop: the frame counter
`cur_frame`, the unread rest of the stream, and the dispatches made so
far. -/
structure DemuxState where
  frame : ℕ
  rest : List ℕ
  out : List (ℕ × List ℕ)
deriving DecidableEq, Repr

/-- One successful iteration of the demux loop (ffmpeg.rs:215-231): with
`sizes` nonempty and `sizes[frame % N]` bytes available, read them,
dispatch them to trigger `frame % N`, and advance the frame counter. -/
inductive DemuxStep (sizes : List ℕ) : DemuxState → DemuxState → Prop
  | read (s : DemuxState)
      (hN : sizes.length ≠ 0)
      (hsz : sizes.getD (s.frame % sizes.length) 0 ≤ s.rest.length) :
      DemuxStep sizes s
        { frame := s.frame + 1
        , rest := s.rest.drop (sizes.getD (s.frame % sizes.length) 0)
        , out := s.out ++ [(s.frame % sizes.length,
                            s.rest.take (sizes.getD (s.frame % sizes.length) 0))] }

/-- Zero or more demux iterations. -/
inductive DemuxSteps (sizes : List ℕ) : DemuxState → DemuxState → Prop
  | refl (s : DemuxState) : DemuxSteps sizes s s
  | head {s t u : DemuxState} :
      DemuxStep sizes s t → DemuxSteps sizes t u → DemuxSteps sizes s u

/-- A state from which the loop cannot iterate again (stream exhausted, or
no triggers). -/
def DemuxStuck (sizes : List ℕ) (s : DemuxState) : Prop :=
  ∀ t, ¬ DemuxStep sizes s t

/-! ### Statement helpers and concrete fixtures -/

/-- Tags a list of frame-sized chunks with the round-robin trigger indices
the demux loop assigns to them, starting at frame counter `f` with `N`
triggers: chunk `j` goes to trigger `(f + j) % N`. -/
def tagChunks (N : ℕ) : ℕ → List (List ℕ) → List (ℕ × List ℕ)
  | _, [] => []
  | f, c :: cs => (f % N, c) :: tagChunks N (f + 1) cs

/-- Fixture: a trigger with a 1×1-pixel crop (buffer size 3). -/
def trigA : Trigger :=
  { id := "trigger-a"
  , crop := { xPercent := 10, yPercent := 20, widthPercent := 30
            , heightPercent := 40, width := 1, height := 1 }
  , runner_type := "tesseract"
  , debug := false }

/-- Fixture: a trigger with a 1×2-pixel crop (buffer size 6). -/
def trigB : Trigger :=
  { id := "trigger-b"
  , crop := { xPercent := 0, yPercent := 0, widthPercent := 50
            , heightPercent := 50, width := 1, height := 2 }
  , runner_type := "tensorflow"
  , debug := false }

/-- Fixture: a trigger whose crop rectangle is degenerate
(`widthPercent = 150` lies outside [0,100]). -/
def trigBad : Trigger :=
  { id := "trigger-bad"
  , crop := { xPercent := 0, yPercent := 0, widthPercent := 150
            , heightPercent := 50, width := 224, height := 224 }
  , runner_type := "tensorflow"
  , debug := false }

/-- Fixture: logging flags with ffmpeg debug output enabled. -/
def logDbg : LoggingConfig :=
  { debug_ffmpeg := true
  , debug_buffer_allocation := false
  , debug_buffer_transfer := false
  , debug_thread_exit := false }

/-- Fixture: a two-trigger configuration (buffer sizes 3 and 6). -/
def cfgAB : HypetriggerConfig :=
  { inputPath := "in.mp4", samplesPerSecond := 2
  , triggers := [trigA, trigB], logging := logDbg }

/-- Fixture: a configuration with an empty trigger list. -/
def cfgEmpty : HypetriggerConfig :=
  { inputPath := "in.mp4", samplesPerSecond := 2
  , triggers := [], logging := logDbg }

/-- Fixture: a configuration containing a degenerate trigger. -/
def cfgBad : HypetriggerConfig :=
  { inputPath := "in.mp4", samplesPerSecond := 2
  , triggers := [trigBad], logging := logDbg }

/-- Fixture: synthetic frame content for `cfgAB` — round `k`, trigger `i`
gets a frame of marker byte `10 * k + i`, sized to trigger `i`'s buffer. -/
def contentW : ℕ → ℕ → List ℕ :=
  fun k i => List.replicate ((bufSizes cfgAB).getD i 0) (10 * k + i)

/-! ## Lemmas about the demux loop -/

theorem stdoutLoop_modZero {sizes : List ℕ} (send : ℕ → Bool) (fuel f : ℕ)
    (stream : List ℕ) (hN : sizes.length = 0) :
    ffmpegStdoutLoop sizes send (fuel + 1) f stream = ([], .panicModZero) := by
  simp [ffmpegStdoutLoop, hN]

theorem stdoutLoop_read {sizes : List ℕ} {send : ℕ → Bool} (fuel f : ℕ)
    {stream : List ℕ} (hN : sizes.length ≠ 0)
    (hsz : sizes.getD (f % sizes.length) 0 ≤ stream.length)
    (hsend : send f = true) :
    ffmpegStdoutLoop sizes send (fuel + 1) f stream
      = ((f % sizes.length, stream.take (sizes.getD (f % sizes.length) 0))
           :: (ffmpegStdoutLoop sizes send fuel (f + 1)
                 (stream.drop (sizes.getD (f % sizes.length) 0))).1,
         (ffmpegStdoutLoop sizes send fuel (f + 1)
            (stream.drop (sizes.getD (f % sizes.length) 0))).2) := by
  have hsz' : sizes[f % sizes.length]?.getD 0 ≤ stream.length := by simpa using hsz
  simp [ffmpegStdoutLoop, hN, hsz', hsend]

theorem stdoutLoop_sendFail {sizes : List ℕ} {send : ℕ → Bool} (fuel f : ℕ)
    {stream : List ℕ} (hN : sizes.length ≠ 0)
    (hsz : sizes.getD (f % sizes.length) 0 ≤ stream.length)
    (hsend : send f = false) :
    ffmpegStdoutLoop sizes send (fuel + 1) f stream = ([], .panicSend) := by
  have hsz' : sizes[f % sizes.length]?.getD 0 ≤ stream.length := by simpa using hsz
  simp [ffmpegStdoutLoop, hN, hsz', hsend]

theorem stdoutLoop_eof {sizes : List ℕ} (send : ℕ → Bool) (fuel f : ℕ)
    {stream : List ℕ} (hN : sizes.length ≠ 0)
    (hsz : stream.length < sizes.getD (f % sizes.length) 0) :
    ffmpegStdoutLoop sizes send (fuel + 1) f stream = ([], .eof) := by
  have hsz' : ¬ sizes[f % sizes.length]?.getD 0 ≤ stream.length := by
    simpa using Nat.not_le.mpr hsz
  simp [ffmpegStdoutLoop, hN, hsz']

/-- Consuming a run of exactly-sized chunks: if the next `chunks.length`
frames' worth of bytes sit at the front of the stream, each chunk aligned
with the size of the trigger the round-robin order assigns to it, the loop
dispatches exactly those chunks, tagged `(f + j) % N`, and carries on with
the rest of the stream. -/
theorem stdoutLoop_chunks (sizes : List ℕ) (send : ℕ → Bool)
    (hN : sizes.length ≠ 0) :
    ∀ (chunks : List (List ℕ)) (f m : ℕ) (rest : List ℕ),
      (∀ j, j < chunks.length →
        (chunks.getD j []).length = sizes.getD ((f + j) % sizes.length) 0) →
      (∀ j, j < chunks.length → send (f + j) = true) →
      ffmpegStdoutLoop sizes send (chunks.length + m) f (chunks.flatten ++ rest)
        = (tagChunks sizes.length f chunks
             ++ (ffmpegStdoutLoop sizes send m (f + chunks.length) rest).1,
           (ffmpegStdoutLoop sizes send m (f + chunks.length) rest).2) := by
  intro chunks
  induction chunks with
  | nil => intro f m rest _ _; simp [tagChunks]
  | cons c cs ih =>
    intro f m rest hlen hsend
    have hsz : sizes.getD (f % sizes.length) 0 = c.length := by
      have := hlen 0 (by simp)
      simpa using this.symm
    have hfuel : (c :: cs).length + m = (cs.length + m) + 1 := by
      simp [List.length_cons]; omega
    have hstream : (c :: cs).flatten ++ rest = c ++ (cs.flatten ++ rest) := by
      simp
    rw [hfuel, hstream]
    rw [stdoutLoop_read (cs.length + m) f hN
      (by rw [hsz]; simp) (hsend 0 (by simp))]
    rw [hsz, List.take_left, List.drop_left]
    have ihres := ih (f + 1) m rest
      (by
        intro j hj
        have := hlen (j + 1) (by simpa using Nat.succ_lt_succ hj)
        have harith : f + (j + 1) = f + 1 + j := by omega
        simpa [harith] using this)
      (by
        intro j hj
        have := hsend (j + 1) (by simpa using Nat.succ_lt_succ hj)
        have harith : f + (j + 1) = f + 1 + j := by omega
        simpa [harith] using this)
    rw [ihres]
    have harith : f + 1 + cs.length = f + (c :: cs).length := by
      simp [List.length_cons]; omega
    simp [tagChunks, harith]

theorem tagChunks_range' (N : ℕ) (g : ℕ → List ℕ) :
    ∀ (n a f : ℕ), (∀ j, j < n → (f + j) % N = a + j) →
      tagChunks N f ((List.range' a n).map g)
        = (List.range' a n).map (fun i => (i, g i)) := by
  intro n
  induction n with
  | zero => intro a f _; simp [tagChunks]
  | succ n ih =>
    intro a f h
    rw [List.range'_succ]
    simp only [List.map_cons, tagChunks]
    have h0 : f % N = a := by simpa using h 0 (Nat.succ_pos n)
    rw [h0, ih (a + 1) (f + 1)
      (by
        intro j hj
        have harith : f + 1 + j = f + (j + 1) := by omega
        rw [harith]
        have := h (j + 1) (Nat.succ_lt_succ hj)
        omega)]

theorem getD_map_range' (g : ℕ → List ℕ) :
    ∀ (n a j : ℕ), j < n → ((List.range' a n).map g).getD j [] = g (a + j) := by
  intro n
  induction n with
  | zero => intro a j hj; omega
  | succ n ih =>
    intro a j hj
    rw [List.range'_succ]
    match j with
    | 0 => simp
    | j + 1 =>
      simp only [List.map_cons, List.getD_cons_succ]
      have := ih (a + 1) j (by omega)
      rw [this]
      congr 1
      omega

theorem le_length_flatMap_range' (g : ℕ → List ℕ) :
    ∀ (n a : ℕ), (∀ i, i < n → 0 < (g (a + i)).length) →
      n ≤ ((List.range' a n).flatMap g).length := by
  intro n
  induction n with
  | zero => intro a _; simp
  | succ n ih =>
    intro a h
    rw [List.range'_succ]
    simp only [List.flatMap_cons, List.length_append]
    have h0 : 0 < (g a).length := by simpa using h 0 (Nat.succ_pos n)
    have := ih (a + 1) (by
      intro i hi
      have := h (i + 1) (Nat.succ_lt_succ hi)
      have harith : a + 1 + i = a + (i + 1) := by omega
      rw [harith]
      exact this)
    omega

/-- The demux loop on `K` full rounds of frames followed by `rest`:
all `K * N` frames are dispatched in round-robin order `0, 1, …, N-1,
0, 1, …`, frame `(k, i)` carrying exactly the bytes `content k i`, and the
loop continues on `rest`. -/
theorem stdoutLoop_rounds (sizes : List ℕ) (content : ℕ → ℕ → List ℕ)
    (hN : sizes.length ≠ 0)
    (K : ℕ)
    (hlen : ∀ k, k < K → ∀ i, i < sizes.length →
      (content k i).length = sizes.getD i 0) :
    ∀ (m : ℕ) (rest : List ℕ),
      ffmpegStdoutLoop sizes (fun _ => true) (K * sizes.length + m) 0
          (((List.range K).flatMap fun k =>
              (List.range sizes.length).flatMap (content k)) ++ rest)
        = (((List.range K).flatMap fun k =>
              (List.range sizes.length).map fun i => (i, content k i))
             ++ (ffmpegStdoutLoop sizes (fun _ => true) m
                   (K * sizes.length) rest).1,
           (ffmpegStdoutLoop sizes (fun _ => true) m
              (K * sizes.length) rest).2) := by
  induction K with
  | zero => intro m rest; simp
  | succ K ih =>
    intro m rest
    have hlen' : ∀ k, k < K → ∀ i, i < sizes.length →
        (content k i).length = sizes.getD i 0 := by
      intro k hk; exact hlen k (by omega)
    have hfuel : (K + 1) * sizes.length + m
        = K * sizes.length + (sizes.length + m) := by ring
    have hstream : ((List.range (K + 1)).flatMap fun k =>
          (List.range sizes.length).flatMap (content k)) ++ rest
        = ((List.range K).flatMap fun k =>
            (List.range sizes.length).flatMap (content k))
          ++ (((List.range sizes.length).flatMap (content K)) ++ rest) := by
      rw [List.range_succ]
      simp
    rw [hfuel, hstream, ih hlen' (sizes.length + m)
      (((List.range sizes.length).flatMap (content K)) ++ rest)]
    have hmod : ∀ j, j < sizes.length → (K * sizes.length + j) % sizes.length = j := by
      intro j hj
      rw [Nat.add_comm, Nat.add_mul_mod_self_right]
      exact Nat.mod_eq_of_lt hj
    have hchunks :
        ffmpegStdoutLoop sizes (fun _ => true)
            (sizes.length + m) (K * sizes.length)
            (((List.range sizes.length).flatMap (content K)) ++ rest)
          = (tagChunks sizes.length (K * sizes.length)
               ((List.range sizes.length).map (content K))
               ++ (ffmpegStdoutLoop sizes (fun _ => true) m
                     (K * sizes.length + sizes.length) rest).1,
             (ffmpegStdoutLoop sizes (fun _ => true) m
                (K * sizes.length + sizes.length) rest).2) := by
      have := stdoutLoop_chunks sizes (fun _ => true) hN
        ((List.range sizes.length).map (content K)) (K * sizes.length) m rest
        (by
          intro j hj
          simp only [List.length_map, List.length_range] at hj
          rw [List.range_eq_range', getD_map_range' (content K) sizes.length 0 j hj]
          simp only [Nat.zero_add]
          rw [hmod j hj]
          exact hlen K (by omega) j hj)
        (by intro j _; rfl)
      simpa using this
    rw [hchunks]
    have htag : tagChunks sizes.length (K * sizes.length)
        ((List.range sizes.length).map (content K))
        = (List.range sizes.length).map fun i => (i, content K i) := by
      rw [List.range_eq_range']
      exact tagChunks_range' sizes.length (content K) sizes.length 0
        (K * sizes.length) (by intro j hj; simpa using hmod j hj)
    rw [htag]
    have hpos : K * sizes.length + sizes.length = (K + 1) * sizes.length := by ring
    rw [hpos, List.range_succ]
    simp

theorem mul_le_length_flatMap_range' (g : ℕ → List ℕ) (N : ℕ) :
    ∀ (n a : ℕ), (∀ i, i < n → N ≤ (g (a + i)).length) →
      n * N ≤ ((List.range' a n).flatMap g).length := by
  intro n
  induction n with
  | zero => intro a _; simp
  | succ n ih =>
    intro a h
    rw [List.range'_succ]
    simp only [List.flatMap_cons, List.length_append]
    have h0 : N ≤ (g a).length := by simpa using h 0 (Nat.succ_pos n)
    have := ih (a + 1) (by
      intro i hi
      have := h (i + 1) (Nat.succ_lt_succ hi)
      have harith : a + 1 + i = a + (i + 1) := by omega
      rw [harith]
      exact this)
    have harith : (n + 1) * N = N + n * N := by ring
    omega

theorem filter_beq_range'_out (i : ℕ) :
    ∀ (n a : ℕ), i < a → (List.range' a n).filter (fun j => j == i) = [] := by
  intro n
  induction n with
  | zero => intro a _; rfl
  | succ n ih =>
    intro a hia
    rw [List.range'_succ]
    rw [List.filter_cons_of_neg (by simp; omega)]
    exact ih (a + 1) (by omega)

theorem filter_beq_range'_mem (i : ℕ) :
    ∀ (n a : ℕ), a ≤ i → i < a + n →
      (List.range' a n).filter (fun j => j == i) = [i] := by
  intro n
  induction n with
  | zero => intro a h1 h2; omega
  | succ n ih =>
    intro a h1 h2
    rw [List.range'_succ]
    by_cases hai : a = i
    · subst hai
      rw [List.filter_cons_of_pos (by simp)]
      rw [filter_beq_range'_out a n (a + 1) (by omega)]
    · rw [List.filter_cons_of_neg (by simp; omega)]
      exact ih (a + 1) (by omega) (by omega)

theorem filter_fst_beq_map_range (N i : ℕ) (hi : i < N) (c : ℕ → List ℕ) :
    ((List.range N).map fun j => (j, c j)).filter (fun d => d.1 == i)
      = [(i, c i)] := by
  rw [List.filter_map]
  have hcomp : ((fun d => d.1 == i) ∘ (fun j => ((j, c j) : ℕ × List ℕ)))
      = fun j => j == i := rfl
  rw [hcomp, List.range_eq_range', filter_beq_range'_mem i N 0 (by omega) (by omega)]
  simp

theorem dispatch_filter_count (N : ℕ) (content : ℕ → ℕ → List ℕ) (i : ℕ)
    (hi : i < N) :
    ∀ K, (((List.range K).flatMap fun k =>
        (List.range N).map fun j => (j, content k j)).filter
          fun d => d.1 == i).length = K := by
  intro K
  induction K with
  | zero => rfl
  | succ K ih =>
    rw [List.range_succ]
    simp only [List.flatMap_append, List.flatMap_cons, List.flatMap_nil,
      List.append_nil, List.filter_append, List.length_append]
    rw [filter_fst_beq_map_range N i hi (content K)]
    simp [ih]

/-- C1: for every configuration with `N ≥ 1` triggers (positive buffer
sizes, per the data model) and a stream of `K` full rounds of per-trigger
frames, the stdout demuxer dispatches exactly `K` frames per trigger, in
strict round-robin order `0, 1, …, N-1, 0, 1, …`: the frame of iteration
`f` goes to trigger `f mod N` and carries exactly that trigger's
`size[f mod N]` bytes of the stream. -/
theorem C1_round_robin_demux (cfg : HypetriggerConfig) (K : ℕ)
    (content : ℕ → ℕ → List ℕ)
    (hN : cfg.triggers.length ≠ 0)
    (hpos : ∀ i, i < cfg.triggers.length → 0 < (bufSizes cfg).getD i 0)
    (hlen : ∀ k, k < K → ∀ i, i < cfg.triggers.length →
      (content k i).length = (bufSizes cfg).getD i 0) :
    spawn_ffmpeg_stdout_run cfg
        ((List.range K).flatMap fun k =>
          (List.range cfg.triggers.length).flatMap (content k))
      = ((List.range K).flatMap fun k =>
           (List.range cfg.triggers.length).map fun i => (i, content k i),
         .eof)
    ∧ ∀ i, i < cfg.triggers.length →
        (((List.range K).flatMap fun k =>
            (List.range cfg.triggers.length).map fun j => (j, content k j)).filter
              fun d => d.1 == i).length = K := by
  have hsN : (bufSizes cfg).length = cfg.triggers.length := by
    simp [bufSizes]
  have hN' : (bufSizes cfg).length ≠ 0 := by rw [hsN]; exact hN
  have hlen' : ∀ k, k < K → ∀ i, i < (bufSizes cfg).length →
      (content k i).length = (bufSizes cfg).getD i 0 := by
    intro k hk i hi
    exact hlen k hk i (hsN ▸ hi)
  have hpos' : ∀ i, i < (bufSizes cfg).length → 0 < (bufSizes cfg).getD i 0 := by
    intro i hi
    exact hpos i (hsN ▸ hi)
  constructor
  · rw [← hsN]
    have hinner : ∀ k, k < K →
        (bufSizes cfg).length ≤
          ((List.range (bufSizes cfg).length).flatMap (content k)).length := by
      intro k hk
      rw [List.range_eq_range']
      apply le_length_flatMap_range' (content k) _ 0
      intro i hi
      have := hlen' k hk i (by simpa using hi)
      simp only [Nat.zero_add]
      rw [this]
      exact hpos' i (by simpa using hi)
    have hbound : K * (bufSizes cfg).length ≤
        ((List.range K).flatMap fun k =>
          (List.range (bufSizes cfg).length).flatMap (content k)).length := by
      rw [List.range_eq_range' K]
      apply mul_le_length_flatMap_range' _ _ K 0
      intro i hi
      simp only [Nat.zero_add]
      exact hinner i hi
    rw [spawn_ffmpeg_stdout_run]
    obtain ⟨m, hm, hm1⟩ : ∃ m,
        ((List.range K).flatMap fun k =>
          (List.range (bufSizes cfg).length).flatMap (content k)).length + 1
          = K * (bufSizes cfg).length + m ∧ 1 ≤ m := by
      refine ⟨((List.range K).flatMap fun k =>
        (List.range (bufSizes cfg).length).flatMap (content k)).length + 1
          - K * (bufSizes cfg).length, by omega, by omega⟩
    rw [hm]
    have htail : ffmpegStdoutLoop (bufSizes cfg) (fun _ => true) m
        (K * (bufSizes cfg).length) [] = ([], .eof) := by
      obtain ⟨m', rfl⟩ := Nat.exists_eq_succ_of_ne_zero (by omega : m ≠ 0)
      apply stdoutLoop_eof _ m' _ hN'
      rw [Nat.mul_mod_left]
      simpa using hpos' 0 (Nat.pos_of_ne_zero hN')
    have hrounds := stdoutLoop_rounds (bufSizes cfg) content hN' K hlen' m []
    rw [htail] at hrounds
    simpa using hrounds
  · intro i hi
    exact dispatch_filter_count cfg.triggers.length content i hi K

/-- Witness for C1: the two-trigger fixture, two full rounds of marker
frames. -/
theorem C1_round_robin_demux_witness :
    (cfgAB.triggers.length ≠ 0
      ∧ (∀ i, i < cfgAB.triggers.length → 0 < (bufSizes cfgAB).getD i 0)
      ∧ (∀ k, k < 2 → ∀ i, i < cfgAB.triggers.length →
          (contentW k i).length = (bufSizes cfgAB).getD i 0))
    ∧ (spawn_ffmpeg_stdout_run cfgAB
          ((List.range 2).flatMap fun k =>
            (List.range cfgAB.triggers.length).flatMap (contentW k))
        = ((List.range 2).flatMap fun k =>
             (List.range cfgAB.triggers.length).map fun i => (i, contentW k i),
           .eof)
       ∧ ∀ i, i < cfgAB.triggers.length →
           (((List.range 2).flatMap fun k =>
               (List.range cfgAB.triggers.length).map fun j => (j, contentW k j)).filter
                 fun d => d.1 == i).length = 2) :=
  ⟨⟨by decide, by decide, by decide⟩,
   C1_round_robin_demux cfgAB 2 contentW (by decide) (by decide) (by decide)⟩

theorem le_length_flatten (chunks : List (List ℕ)) :
    (∀ j, j < chunks.length → 0 < (chunks.getD j []).length) →
    chunks.length ≤ chunks.flatten.length := by
  induction chunks with
  | nil => intro _; simp
  | cons c cs ih =>
    intro h
    simp only [List.flatten_cons, List.length_append, List.length_cons]
    have h0 : 0 < c.length := by simpa using h 0 (by simp)
    have := ih (by
      intro j hj
      have := h (j + 1) (by simpa using Nat.succ_lt_succ hj)
      simpa using this)
    omega

/-- C5: a stream made of complete frame-sized chunks followed by a
truncated tail (shorter than the next frame's buffer) makes the demuxer
dispatch exactly the complete frames, in round-robin order, and then stop
with a normal end-of-stream — no partial frame is dispatched. -/
theorem C5_truncated_stream (cfg : HypetriggerConfig)
    (chunks : List (List ℕ)) (tail : List ℕ)
    (hN : cfg.triggers.length ≠ 0)
    (hlen : ∀ j, j < chunks.length →
      (chunks.getD j []).length
        = (bufSizes cfg).getD (j % cfg.triggers.length) 0)
    (hpos : ∀ i, i < cfg.triggers.length → 0 < (bufSizes cfg).getD i 0)
    (htail : tail.length
        < (bufSizes cfg).getD (chunks.length % cfg.triggers.length) 0) :
    spawn_ffmpeg_stdout_run cfg (chunks.flatten ++ tail)
      = (tagChunks cfg.triggers.length 0 chunks, .eof) := by
  have hsN : (bufSizes cfg).length = cfg.triggers.length := by
    simp [bufSizes]
  have hN' : (bufSizes cfg).length ≠ 0 := by rw [hsN]; exact hN
  have hmodlt : ∀ j : ℕ, j % cfg.triggers.length < cfg.triggers.length := by
    intro j
    exact Nat.mod_lt j (Nat.pos_of_ne_zero hN)
  have hbound : chunks.length ≤ chunks.flatten.length := by
    apply le_length_flatten
    intro j hj
    rw [hlen j hj]
    exact hpos _ (hmodlt j)
  rw [spawn_ffmpeg_stdout_run]
  obtain ⟨m, hm, hm1⟩ : ∃ m,
      (chunks.flatten ++ tail).length + 1 = chunks.length + m ∧ 1 ≤ m := by
    refine ⟨(chunks.flatten ++ tail).length + 1 - chunks.length, ?_, ?_⟩
    · simp only [List.length_append]; omega
    · simp only [List.length_append]; omega
  rw [hm]
  have hchunks := stdoutLoop_chunks (bufSizes cfg) (fun _ => true) hN'
    chunks 0 m tail
    (by
      intro j hj
      rw [hsN]
      simpa using hlen j hj)
    (by intro j _; rfl)
  rw [hchunks]
  have htailloop : ffmpegStdoutLoop (bufSizes cfg) (fun _ => true) m
      (0 + chunks.length) tail = ([], .eof) := by
    obtain ⟨m', rfl⟩ := Nat.exists_eq_succ_of_ne_zero (by omega : m ≠ 0)
    apply stdoutLoop_eof _ m' _ hN'
    rw [hsN]
    simpa using htail
  rw [htailloop]
  rw [hsN]
  simp

/-- Witness for C5: three complete frames then a 2-byte truncated tail. -/
theorem C5_truncated_stream_witness :
    (cfgAB.triggers.length ≠ 0
      ∧ (∀ j, j < ([[1, 2, 3], [4, 5, 6, 7, 8, 9], [10, 11, 12]] :
            List (List ℕ)).length →
          (([[1, 2, 3], [4, 5, 6, 7, 8, 9], [10, 11, 12]] :
            List (List ℕ)).getD j []).length
            = (bufSizes cfgAB).getD (j % cfgAB.triggers.length) 0)
      ∧ (∀ i, i < cfgAB.triggers.length → 0 < (bufSizes cfgAB).getD i 0)
      ∧ ([13, 14] : List ℕ).length
          < (bufSizes cfgAB).getD
              (([[1, 2, 3], [4, 5, 6, 7, 8, 9], [10, 11, 12]] :
                List (List ℕ)).length % cfgAB.triggers.length) 0)
    ∧ spawn_ffmpeg_stdout_run cfgAB
          (([[1, 2, 3], [4, 5, 6, 7, 8, 9], [10, 11, 12]] :
            List (List ℕ)).flatten ++ [13, 14])
        = (tagChunks cfgAB.triggers.length 0
            [[1, 2, 3], [4, 5, 6, 7, 8, 9], [10, 11, 12]], .eof) :=
  ⟨⟨by decide, by decide, by decide, by decide⟩,
   C5_truncated_stream cfgAB [[1, 2, 3], [4, 5, 6, 7, 8, 9], [10, 11, 12]]
     [13, 14] (by decide) (by decide) (by decide) (by decide)⟩

/-- C3 (code bug): with an empty trigger list the demux loop does not
terminate cleanly.  It evaluates `buffers[cur_frame % num_triggers]` with
`num_triggers = 0` (ffmpeg.rs:216); the Rust remainder-by-zero panics
before any byte is read, recorded by the model as `panicModZero` — the
spec's required clean immediate exit does not happen. -/
theorem C3_empty_triggers_modulo_zero :
    spawn_ffmpeg_stdout_run cfgEmpty [0, 1, 2] = ([], .panicModZero) := rfl

/-- C4 (counterexample): a configuration whose only trigger has a
degenerate crop rectangle (`widthPercent = 150`, outside [0,100]) is not
rejected: the pre-spawn phase of `spawn_ffmpeg_childprocess` reports no
`InvalidGraphError` and assembles the argument list anyway. -/
theorem C4_no_invalid_graph_error_counterexample :
    degenerateCrop trigBad.crop = true
    ∧ (spawn_ffmpeg_prespawn cfgBad).isInvalidGraph = false
    ∧ spawn_ffmpeg_prespawn cfgBad = .spawnArgs (spawn_ffmpeg_args cfgBad) :=
  ⟨by decide, rfl, rfl⟩

/-- C4 (amended): `spawn_ffmpeg_childprocess` performs no crop validation
at all: for every configuration — degenerate crop rectangles included —
the pre-spawn phase assembles the argument list and never reports an
`InvalidGraphError`; the only failure mode is the OS-level spawn itself. -/
theorem C4_no_validation_before_spawn (cfg : HypetriggerConfig) :
    (spawn_ffmpeg_prespawn cfg).isInvalidGraph = false
    ∧ spawn_ffmpeg_prespawn cfg = .spawnArgs (spawn_ffmpeg_args cfg) :=
  ⟨rfl, rfl⟩

theorem mapArgs_length : ∀ n : ℕ, (mapArgs n).length = 2 * n := by
  intro n
  induction n with
  | zero => rfl
  | succ n ih =>
    simp only [mapArgs, List.length_append, List.length_cons, List.length_nil, ih]
    try omega

/-- C7 (counterexample): on a debug-enabled configuration the full command
rendering (`printCommand`) is emitted strictly after the subprocess spawn
event, and the rendered command differs from the actually assembled
argument list (it is the `-vframes`/`.bmp` debug variant). -/
theorem C7_render_counterexample :
    spawn_ffmpeg_events cfgAB "ffmpeg.exe"
      = [.printExe "ffmpeg.exe", .spawnProc (spawn_ffmpeg_args cfgAB),
         .printCommand (debugRenderedArgs cfgAB)]
    ∧ debugRenderedArgs cfgAB ≠ spawn_ffmpeg_args cfgAB :=
  ⟨rfl, by decide⟩

/-- C7 (amended): when the debug flag is set, only the executable path is
printed before the spawn; the full command rendering is printed after the
subprocess is spawned (so it cannot block or fail the spawn), and that
rendering never equals the actually assembled argument list — it is a
fixed debug variant with `-vframes num_triggers * 5` and a
`scripts/frame%03d.bmp` output in place of the raw-video pipe output. -/
theorem C7_debug_render_after_spawn (cfg : HypetriggerConfig)
    (exePath : String) (hdbg : cfg.logging.debug_ffmpeg = true) :
    spawn_ffmpeg_events cfg exePath
      = [.printExe exePath, .spawnProc (spawn_ffmpeg_args cfg),
         .printCommand (debugRenderedArgs cfg)]
    ∧ debugRenderedArgs cfg ≠ spawn_ffmpeg_args cfg := by
  constructor
  · simp [spawn_ffmpeg_events, hdbg]
  · intro h
    have hl := congrArg List.length h
    simp only [debugRenderedArgs, spawn_ffmpeg_args, preArgs, postArgs,
      List.length_append, List.length_cons, List.length_nil,
      mapArgs_length] at hl
    omega

/-- Witness for C7's amended theorem at a concrete debug-enabled
configuration. -/
theorem C7_debug_render_after_spawn_witness :
    cfgAB.logging.debug_ffmpeg = true
    ∧ (spawn_ffmpeg_events cfgAB "ffmpeg.exe"
        = [.printExe "ffmpeg.exe", .spawnProc (spawn_ffmpeg_args cfgAB),
           .printCommand (debugRenderedArgs cfgAB)]
       ∧ debugRenderedArgs cfgAB ≠ spawn_ffmpeg_args cfgAB) :=
  ⟨rfl, C7_debug_render_after_spawn cfgAB "ffmpeg.exe" rfl⟩

/-! ## Lemmas about the filter graph and argument list -/

theorem cropStages_length :
    ∀ (ts : List Trigger) (a : ℕ), (cropStages ts a).length = ts.length := by
  intro ts
  induction ts with
  | nil => intro a; rfl
  | cons t ts ih => intro a; simp [cropStages, ih]

theorem cropStages_getElem? :
    ∀ (ts : List Trigger) (a i : ℕ) (t : Trigger),
      ts[i]? = some t → (cropStages ts a)[i]? = some (cropStage (a + i) t) := by
  intro ts
  induction ts with
  | nil => intro a i t h; simp at h
  | cons u ts ih =>
    intro a i t h
    match i with
    | 0 =>
      simp only [List.getElem?_cons_zero, Option.some.injEq] at h
      subst h
      simp [cropStages]
    | i + 1 =>
      simp only [List.getElem?_cons_succ] at h
      simp only [cropStages, List.getElem?_cons_succ]
      have := ih (a + 1) i t h
      have harith : a + 1 + i = a + (i + 1) := by omega
      rw [harith] at this
      exact this

theorem mapArgs_getElem? :
    ∀ (n i : ℕ), i < n →
      (mapArgs n)[2 * i]? = some (.lit "-map")
      ∧ (mapArgs n)[2 * i + 1]? = some (.outLabel i) := by
  intro n
  induction n with
  | zero => intro i hi; omega
  | succ n ih =>
    intro i hi
    by_cases h : i < n
    · have := ih i h
      simp only [mapArgs]
      rw [List.getElem?_append_left (by rw [mapArgs_length]; omega),
        List.getElem?_append_left (by rw [mapArgs_length]; omega)]
      exact this
    · have hin : i = n := by omega
      subst hin
      simp only [mapArgs]
      rw [List.getElem?_append_right (by rw [mapArgs_length]; try omega),
        List.getElem?_append_right (by rw [mapArgs_length]; try omega)]
      rw [mapArgs_length]
      have h1 : 2 * i - 2 * i = 0 := by omega
      have h2 : 2 * i + 1 - 2 * i = 1 := by omega
      rw [h1, h2]
      exact ⟨rfl, rfl⟩

theorem countP_isOutLabel_mapArgs :
    ∀ n : ℕ, (mapArgs n).countP Arg.isOutLabel = n := by
  intro n
  induction n with
  | zero => rfl
  | succ n ih =>
    simp [mapArgs, List.countP_append, List.countP_cons, ih, Arg.isOutLabel]

/-- C2: for every non-empty trigger list, the generated filter graph has
exactly one crop stage per trigger, in configuration order, the stage with
output port `i` built from trigger `i`'s percentages each divided by 100
(in the crop positions width, height, x, y); the split count equals the
trigger count, and the argument list maps exactly the trigger count of
output ports, port `i` in map position `i`. -/
theorem C2_filter_graph_ordering (cfg : HypetriggerConfig)
    (hne : cfg.triggers ≠ []) :
    (spawn_ffmpeg_filter_complex cfg).split = cfg.triggers.length
    ∧ (spawn_ffmpeg_filter_complex cfg).stages.length = cfg.triggers.length
    ∧ (∀ i t, cfg.triggers[i]? = some t →
        (spawn_ffmpeg_filter_complex cfg).stages[i]?
          = some ({ inPort := i
                  , w := t.crop.widthPercent / 100
                  , h := t.crop.heightPercent / 100
                  , x := t.crop.xPercent / 100
                  , y := t.crop.yPercent / 100
                  , outPort := i } : CropStage))
    ∧ (spawn_ffmpeg_args cfg).countP Arg.isOutLabel = cfg.triggers.length
    ∧ (∀ i, i < cfg.triggers.length →
        (spawn_ffmpeg_args cfg)[6 + 2 * i]? = some (.lit "-map")
        ∧ (spawn_ffmpeg_args cfg)[6 + 2 * i + 1]? = some (.outLabel i)) := by
  have hpre : (preArgs cfg).length = 6 := rfl
  refine ⟨rfl, ?_, ?_, ?_, ?_⟩
  · exact cropStages_length cfg.triggers 0
  · intro i t h
    have := cropStages_getElem? cfg.triggers 0 i t h
    simpa [spawn_ffmpeg_filter_complex, cropStage] using this
  · simp [spawn_ffmpeg_args, preArgs, postArgs, List.countP_append,
      List.countP_cons, countP_isOutLabel_mapArgs, Arg.isOutLabel]
  · intro i hi
    have hmap := mapArgs_getElem? cfg.triggers.length i hi
    constructor
    · rw [spawn_ffmpeg_args]
      rw [List.getElem?_append_right (by rw [hpre]; omega)]
      rw [hpre]
      rw [List.getElem?_append_left (by rw [mapArgs_length]; omega)]
      have h1 : 6 + 2 * i - 6 = 2 * i := by omega
      rw [h1]
      exact hmap.1
    · rw [spawn_ffmpeg_args]
      rw [List.getElem?_append_right (by rw [hpre]; omega)]
      rw [hpre]
      rw [List.getElem?_append_left (by rw [mapArgs_length]; omega)]
      have h1 : 6 + 2 * i + 1 - 6 = 2 * i + 1 := by omega
      rw [h1]
      exact hmap.2

/-- Witness for C2 at the two-trigger fixture. -/
theorem C2_filter_graph_ordering_witness :
    cfgAB.triggers ≠ []
    ∧ ((spawn_ffmpeg_filter_complex cfgAB).split = cfgAB.triggers.length
      ∧ (spawn_ffmpeg_filter_complex cfgAB).stages.length = cfgAB.triggers.length
      ∧ (∀ i t, cfgAB.triggers[i]? = some t →
          (spawn_ffmpeg_filter_complex cfgAB).stages[i]?
            = some ({ inPort := i
                    , w := t.crop.widthPercent / 100
                    , h := t.crop.heightPercent / 100
                    , x := t.crop.xPercent / 100
                    , y := t.crop.yPercent / 100
                    , outPort := i } : CropStage))
      ∧ (spawn_ffmpeg_args cfgAB).countP Arg.isOutLabel = cfgAB.triggers.length
      ∧ (∀ i, i < cfgAB.triggers.length →
          (spawn_ffmpeg_args cfgAB)[6 + 2 * i]? = some (.lit "-map")
          ∧ (spawn_ffmpeg_args cfgAB)[6 + 2 * i + 1]? = some (.outLabel i))) :=
  ⟨by decide, C2_filter_graph_ordering cfgAB (by decide)⟩

/-! ## Enqueue failure (`on_ffmpeg_stdout`'s `expect`) -/

/-- C8: if the `k`-th worker enqueue fails (after `k` successful ones), and
the unfailing run would have produced more than `k` frames, the demuxer
terminates with the send panic having dispatched exactly the first `k`
frames of the unfailing run: production stops, no frame is silently
dropped with the loop continuing, and the already-dispatched frames are
unchanged. -/
theorem C8_enqueue_failure_fatal (sizes : List ℕ) (send : ℕ → Bool) :
    ∀ (k fuel f : ℕ) (stream : List ℕ),
      (∀ j, j < k → send (f + j) = true) →
      send (f + k) = false →
      k < (ffmpegStdoutLoop sizes (fun _ => true) fuel f stream).1.length →
      ffmpegStdoutLoop sizes send fuel f stream
        = ((ffmpegStdoutLoop sizes (fun _ => true) fuel f stream).1.take k,
           .panicSend) := by
  intro k
  induction k with
  | zero =>
    intro fuel f stream hok hfail hlong
    match fuel with
    | 0 => simp [ffmpegStdoutLoop] at hlong
    | fuel + 1 =>
      by_cases hN : sizes.length = 0
      · rw [stdoutLoop_modZero (fun _ => true) fuel f stream hN] at hlong
        simp at hlong
      · by_cases hsz : sizes.getD (f % sizes.length) 0 ≤ stream.length
        · rw [stdoutLoop_sendFail fuel f hN hsz (by simpa using hfail)]
          simp
        · rw [stdoutLoop_eof (fun _ => true) fuel f hN (by omega)] at hlong
          simp at hlong
  | succ k ih =>
    intro fuel f stream hok hfail hlong
    match fuel with
    | 0 => simp [ffmpegStdoutLoop] at hlong
    | fuel + 1 =>
      by_cases hN : sizes.length = 0
      · rw [stdoutLoop_modZero (fun _ => true) fuel f stream hN] at hlong
        simp at hlong
      · by_cases hsz : sizes.getD (f % sizes.length) 0 ≤ stream.length
        · have hsf : send f = true := by simpa using hok 0 (Nat.succ_pos k)
          rw [stdoutLoop_read fuel f hN hsz rfl] at hlong
          simp only [List.length_cons] at hlong
          have hok' : ∀ j, j < k → send (f + 1 + j) = true := by
            intro j hj
            have harith : f + 1 + j = f + (j + 1) := by omega
            rw [harith]
            exact hok (j + 1) (by omega)
          have hfail' : send (f + 1 + k) = false := by
            have harith : f + 1 + k = f + (k + 1) := by omega
            rw [harith]
            exact hfail
          have hrec := ih fuel (f + 1)
            (stream.drop (sizes.getD (f % sizes.length) 0))
            hok' hfail' (by omega)
          rw [stdoutLoop_read fuel f hN hsz hsf, hrec,
            stdoutLoop_read fuel f hN hsz rfl]
          simp
        · rw [stdoutLoop_eof (fun _ => true) fuel f hN (by omega)] at hlong
          simp at hlong

/-- Witness for C8: two triggers of sizes 3 and 6, with the enqueue of
frame 1 failing. -/
theorem C8_enqueue_failure_fatal_witness :
    ((∀ j, j < 1 → (fun n => !(n == 1)) (0 + j) = true)
      ∧ (fun n => !(n == 1)) (0 + 1) = false
      ∧ 1 < (ffmpegStdoutLoop [3, 6] (fun _ => true) 10 0
              [1, 2, 3, 4, 5, 6, 7, 8, 9]).1.length)
    ∧ ffmpegStdoutLoop [3, 6] (fun n => !(n == 1)) 10 0
          [1, 2, 3, 4, 5, 6, 7, 8, 9]
        = ((ffmpegStdoutLoop [3, 6] (fun _ => true) 10 0
              [1, 2, 3, 4, 5, 6, 7, 8, 9]).1.take 1, .panicSend) :=
  ⟨⟨by decide, by decide, by decide⟩,
   C8_enqueue_failure_fatal [3, 6] (fun n => !(n == 1)) 1 10 0
     [1, 2, 3, 4, 5, 6, 7, 8, 9] (by decide) (by decide) (by decide)⟩

/-! ## Stdin pump -/

theorem stdinLoop_all_ok (writeOk : ℕ → Bool) :
    ∀ (cmds : List FfmpegStdinCommand) (n : ℕ),
      (∀ j, writeOk j = true) →
      spawn_ffmpeg_stdin_loop writeOk cmds n
        = (List.replicate cmds.length 113, .queueClosed) := by
  intro cmds
  induction cmds with
  | nil => intro n _; rfl
  | cons c rest ih =>
    intro n h
    match c with
    | .stop =>
      simp only [spawn_ffmpeg_stdin_loop, h n, if_true]
      rw [ih (n + 1) h]
      simp [List.replicate_succ]

theorem stdinLoop_write_fails (writeOk : ℕ → Bool) :
    ∀ (k : ℕ) (cmds : List FfmpegStdinCommand) (n : ℕ),
      (∀ j, j < k → writeOk (n + j) = true) →
      writeOk (n + k) = false →
      k < cmds.length →
      spawn_ffmpeg_stdin_loop writeOk cmds n
        = (List.replicate k 113, .panicWrite) := by
  intro k
  induction k with
  | zero =>
    intro cmds n hok hfail hk
    match cmds with
    | [] => simp at hk
    | .stop :: rest =>
      have h0 : writeOk n = false := by simpa using hfail
      simp [spawn_ffmpeg_stdin_loop, h0]
  | succ k ih =>
    intro cmds n hok hfail hk
    match cmds with
    | [] => simp at hk
    | .stop :: rest =>
      have h0 : writeOk n = true := by simpa using hok 0 (Nat.succ_pos k)
      simp only [spawn_ffmpeg_stdin_loop, h0, if_true]
      rw [ih rest (n + 1)
        (by
          intro j hj
          have harith : n + 1 + j = n + (j + 1) := by omega
          rw [harith]
          exact hok (j + 1) (by omega))
        (by
          have harith : n + 1 + k = n + (k + 1) := by omega
          rw [harith]
          exact hfail)
        (by simpa using hk)]
      simp [List.replicate_succ]

/-- C9: every stop command received on the queue produces exactly one `q`
control byte (113, no newline) on the subprocess's stdin; a failed write
panics this pump thread only, so no further control bytes are written
after a stop command whose write fails. -/
theorem C9_stop_byte_protocol (cmds : List FfmpegStdinCommand)
    (writeOk : ℕ → Bool) :
    ((∀ j, writeOk j = true) →
      spawn_ffmpeg_stdin_loop writeOk cmds 0
        = (List.replicate cmds.length 113, .queueClosed))
    ∧ (∀ k, k < cmds.length → (∀ j, j < k → writeOk j = true) →
        writeOk k = false →
        spawn_ffmpeg_stdin_loop writeOk cmds 0
          = (List.replicate k 113, .panicWrite)) := by
  constructor
  · intro h
    exact stdinLoop_all_ok writeOk cmds 0 h
  · intro k hk hok hfail
    exact stdinLoop_write_fails writeOk k cmds 0
      (by intro j hj; simpa using hok j hj) (by simpa using hfail) hk

/-- Witness for C9: two stops with all writes succeeding; three stops with
the second write failing. -/
theorem C9_stop_byte_protocol_witness :
    spawn_ffmpeg_stdin_loop (fun _ => true) [.stop, .stop] 0
        = (List.replicate 2 113, .queueClosed)
    ∧ spawn_ffmpeg_stdin_loop (fun n => n == 0) [.stop, .stop, .stop] 0
        = (List.replicate 1 113, .panicWrite) :=
  ⟨(C9_stop_byte_protocol [.stop, .stop] (fun _ => true)).1 (fun _ => rfl),
   (C9_stop_byte_protocol [.stop, .stop, .stop] (fun n => n == 0)).2 1
     (by decide) (by decide) (by decide)⟩

/-! ## Determinism of the demux loop -/

theorem demuxStep_deterministic (sizes : List ℕ) {s t t' : DemuxState}
    (h1 : DemuxStep sizes s t) (h2 : DemuxStep sizes s t') : t = t' := by
  cases h1
  cases h2
  rfl

/-- C10: the demux loop is deterministic — from one starting state
(frame counter, stream, dispatch trace) any two complete runs (maximal
step sequences) end in the same state, with the same dispatch trace; the
loop's behaviour depends on nothing but the configuration's sizes and the
stream bytes. -/
theorem C10_demux_deterministic (sizes : List ℕ) (s t t' : DemuxState)
    (h1 : DemuxSteps sizes s t) (hstuck1 : DemuxStuck sizes t)
    (h2 : DemuxSteps sizes s t') (hstuck2 : DemuxStuck sizes t') :
    t = t' := by
  revert hstuck1 h2
  induction h1 with
  | refl s =>
    intro hstuck1 h2
    cases h2 with
    | refl => rfl
    | head hstep _ => exact absurd hstep (hstuck1 _)
  | head hstep hrest ih =>
    intro hstuck1 h2
    cases h2 with
    | refl => exact absurd hstep (hstuck2 _)
    | head hstep2 hrest2 =>
      have heq := demuxStep_deterministic sizes hstep hstep2
      subst heq
      exact ih hstuck1 hrest2

/-- Witness for C10: one concrete maximal run of a one-trigger loop. -/
theorem C10_demux_deterministic_witness :
    (⟨1, [9], [(0, [7, 8])]⟩ : DemuxState) = ⟨1, [9], [(0, [7, 8])]⟩ := by
  have hstep : DemuxStep [2] ⟨0, [7, 8, 9], []⟩ ⟨1, [9], [(0, [7, 8])]⟩ :=
    @DemuxStep.read [2] ⟨0, [7, 8, 9], []⟩ (by decide) (by decide)
  have hstuck : DemuxStuck [2] ⟨1, [9], [(0, [7, 8])]⟩ := by
    intro u hu
    cases hu with
    | read hN hsz => exact absurd hsz (by decide)
  exact C10_demux_deterministic [2] ⟨0, [7, 8, 9], []⟩ _ _
    (DemuxSteps.head hstep (DemuxSteps.refl _)) hstuck
    (DemuxSteps.head hstep (DemuxSteps.refl _)) hstuck

/-! ## Buffer isolation (storage-instrumented loop) -/

theorem hupd_same (h : ℕ → List ℕ) (a : ℕ) (v : List ℕ) : hupd h a v a = v := by
  simp [hupd]

theorem hupd_other (h : ℕ → List ℕ) (a b : ℕ) (v : List ℕ) (hne : b ≠ a) :
    hupd h a v b = h b := by
  simp [hupd, hne]

theorem stdoutLoopHeap_read {sizes : List ℕ} (fuel f : ℕ) {stream : List ℕ}
    (st : HeapState) (hN : sizes.length ≠ 0)
    (hsz : sizes.getD (f % sizes.length) 0 ≤ stream.length) :
    ffmpegStdoutLoopHeap sizes (fuel + 1) f stream st
      = ((f % sizes.length, st.nextAlloc,
            hupd st.heap (f % sizes.length)
              (stream.take (sizes.getD (f % sizes.length) 0)) (f % sizes.length))
           :: (ffmpegStdoutLoopHeap sizes fuel (f + 1)
                 (stream.drop (sizes.getD (f % sizes.length) 0))
                 ⟨hupd (hupd st.heap (f % sizes.length)
                          (stream.take (sizes.getD (f % sizes.length) 0)))
                     st.nextAlloc
                     (hupd st.heap (f % sizes.length)
                        (stream.take (sizes.getD (f % sizes.length) 0))
                        (f % sizes.length)),
                  st.nextAlloc + 1⟩).1,
         (ffmpegStdoutLoopHeap sizes fuel (f + 1)
            (stream.drop (sizes.getD (f % sizes.length) 0))
            ⟨hupd (hupd st.heap (f % sizes.length)
                     (stream.take (sizes.getD (f % sizes.length) 0)))
                st.nextAlloc
                (hupd st.heap (f % sizes.length)
                   (stream.take (sizes.getD (f % sizes.length) 0))
                   (f % sizes.length)),
             st.nextAlloc + 1⟩).2) := by
  have hsz' : sizes[f % sizes.length]?.getD 0 ≤ stream.length := by simpa using hsz
  simp [ffmpegStdoutLoopHeap, hN, hsz']

theorem stdoutLoopHeap_modZero {sizes : List ℕ} (fuel f : ℕ) (stream : List ℕ)
    (st : HeapState) (hN : sizes.length = 0) :
    ffmpegStdoutLoopHeap sizes (fuel + 1) f stream st = ([], st, .panicModZero) := by
  simp [ffmpegStdoutLoopHeap, hN]

theorem stdoutLoopHeap_eof {sizes : List ℕ} (fuel f : ℕ) {stream : List ℕ}
    (st : HeapState) (hN : sizes.length ≠ 0)
    (hsz : stream.length < sizes.getD (f % sizes.length) 0) :
    ffmpegStdoutLoopHeap sizes (fuel + 1) f stream st = ([], st, .eof) := by
  have hsz' : ¬ sizes[f % sizes.length]?.getD 0 ≤ stream.length := by
    simpa using Nat.not_le.mpr hsz
  simp [ffmpegStdoutLoopHeap, hN, hsz']

theorem stdoutLoopHeap_addr (sizes : List ℕ) :
    ∀ (fuel f : ℕ) (stream : List ℕ) (st : HeapState) (k : ℕ)
      (rec : ℕ × ℕ × List ℕ),
      (ffmpegStdoutLoopHeap sizes fuel f stream st).1[k]? = some rec →
      rec.2.1 = st.nextAlloc + k := by
  intro fuel
  induction fuel with
  | zero => intro f stream st k rec h; simp [ffmpegStdoutLoopHeap] at h
  | succ fuel ih =>
    intro f stream st k rec h
    by_cases hN : sizes.length = 0
    · rw [stdoutLoopHeap_modZero fuel f stream st hN] at h
      simp at h
    · by_cases hsz : sizes.getD (f % sizes.length) 0 ≤ stream.length
      · rw [stdoutLoopHeap_read fuel f st hN hsz] at h
        match k with
        | 0 =>
          simp only [List.getElem?_cons_zero, Option.some.injEq] at h
          rw [← h]
          simp
        | k + 1 =>
          simp only [List.getElem?_cons_succ] at h
          have := ih (f + 1) (stream.drop (sizes.getD (f % sizes.length) 0))
            ⟨hupd (hupd st.heap (f % sizes.length)
                     (stream.take (sizes.getD (f % sizes.length) 0)))
                st.nextAlloc
                (hupd st.heap (f % sizes.length)
                   (stream.take (sizes.getD (f % sizes.length) 0))
                   (f % sizes.length)),
             st.nextAlloc + 1⟩ k rec h
          simp only at this
          omega
      · rw [stdoutLoopHeap_eof fuel f st hN (by omega)] at h
        simp at h

theorem stdoutLoopHeap_preserved (sizes : List ℕ) :
    ∀ (fuel f : ℕ) (stream : List ℕ) (st : HeapState) (a : ℕ),
      sizes.length ≤ a → a < st.nextAlloc →
      (ffmpegStdoutLoopHeap sizes fuel f stream st).2.1.heap a = st.heap a := by
  intro fuel
  induction fuel with
  | zero => intro f stream st a _ _; rfl
  | succ fuel ih =>
    intro f stream st a ha1 ha2
    by_cases hN : sizes.length = 0
    · rw [stdoutLoopHeap_modZero fuel f stream st hN]
    · by_cases hsz : sizes.getD (f % sizes.length) 0 ≤ stream.length
      · rw [stdoutLoopHeap_read fuel f st hN hsz]
        have hrec := ih (f + 1) (stream.drop (sizes.getD (f % sizes.length) 0))
          ⟨hupd (hupd st.heap (f % sizes.length)
                   (stream.take (sizes.getD (f % sizes.length) 0)))
              st.nextAlloc
              (hupd st.heap (f % sizes.length)
                 (stream.take (sizes.getD (f % sizes.length) 0))
                 (f % sizes.length)),
           st.nextAlloc + 1⟩ a ha1 (by simp only; omega)
        simp only at hrec
        rw [hrec]
        have hne1 : a ≠ st.nextAlloc := by omega
        have hne2 : a ≠ f % sizes.length := by
          have := Nat.mod_lt f (Nat.pos_of_ne_zero hN)
          omega
        rw [hupd_other _ _ _ _ hne1, hupd_other _ _ _ _ hne2]
      · rw [stdoutLoopHeap_eof fuel f st hN (by omega)]

theorem stdoutLoopHeap_content (sizes : List ℕ) :
    ∀ (fuel f : ℕ) (stream : List ℕ) (st : HeapState),
      sizes.length ≤ st.nextAlloc →
      ∀ (k : ℕ) (rec : ℕ × ℕ × List ℕ),
        (ffmpegStdoutLoopHeap sizes fuel f stream st).1[k]? = some rec →
        (ffmpegStdoutLoopHeap sizes fuel f stream st).2.1.heap rec.2.1
          = rec.2.2 := by
  intro fuel
  induction fuel with
  | zero => intro f stream st _ k rec h; simp [ffmpegStdoutLoopHeap] at h
  | succ fuel ih =>
    intro f stream st hle k rec h
    by_cases hN : sizes.length = 0
    · rw [stdoutLoopHeap_modZero fuel f stream st hN] at h
      simp at h
    · by_cases hsz : sizes.getD (f % sizes.length) 0 ≤ stream.length
      · rw [stdoutLoopHeap_read fuel f st hN hsz] at h ⊢
        match k with
        | 0 =>
          simp only [List.getElem?_cons_zero, Option.some.injEq] at h
          rw [← h]
          simp only
          have hrec := stdoutLoopHeap_preserved sizes fuel (f + 1)
            (stream.drop (sizes.getD (f % sizes.length) 0))
            ⟨hupd (hupd st.heap (f % sizes.length)
                     (stream.take (sizes.getD (f % sizes.length) 0)))
                st.nextAlloc
                (hupd st.heap (f % sizes.length)
                   (stream.take (sizes.getD (f % sizes.length) 0))
                   (f % sizes.length)),
             st.nextAlloc + 1⟩ st.nextAlloc hle (by simp only; omega)
          simp only at hrec
          rw [hrec, hupd_same]
        | k + 1 =>
          simp only [List.getElem?_cons_succ] at h
          exact ih (f + 1) (stream.drop (sizes.getD (f % sizes.length) 0))
            ⟨hupd (hupd st.heap (f % sizes.length)
                     (stream.take (sizes.getD (f % sizes.length) 0)))
                st.nextAlloc
                (hupd st.heap (f % sizes.length)
                   (stream.take (sizes.getD (f % sizes.length) 0))
                   (f % sizes.length)),
             st.nextAlloc + 1⟩ (by simp only; omega) k rec h
      · rw [stdoutLoopHeap_eof fuel f st hN (by omega)] at h
        simp at h

/-- C6: every dispatched frame is a fresh copy.  The `k`-th dispatched
frame lives at the fresh address `num_triggers + k` — distinct from every
scratch-buffer address (`0 … num_triggers - 1`) and from every other
dispatched frame's address — and at the end of the run that address still
holds exactly the bytes dispatched with it: no later `read_exact`
overwrite of a scratch buffer, and no write to any other frame, ever
changes a previously dispatched frame. -/
theorem C6_buffer_isolation (cfg : HypetriggerConfig) (stream : List ℕ) :
    (∀ (k : ℕ) (rec : ℕ × ℕ × List ℕ),
        (spawn_ffmpeg_stdout_run_heap cfg stream).1[k]? = some rec →
        rec.2.1 = (bufSizes cfg).length + k
        ∧ (spawn_ffmpeg_stdout_run_heap cfg stream).2.1.heap rec.2.1
            = rec.2.2)
    ∧ (∀ (k k' : ℕ) (rec rec' : ℕ × ℕ × List ℕ), k ≠ k' →
        (spawn_ffmpeg_stdout_run_heap cfg stream).1[k]? = some rec →
        (spawn_ffmpeg_stdout_run_heap cfg stream).1[k']? = some rec' →
        rec.2.1 ≠ rec'.2.1) := by
  constructor
  · intro k rec h
    simp only [spawn_ffmpeg_stdout_run_heap] at h ⊢
    constructor
    · exact stdoutLoopHeap_addr (bufSizes cfg) (stream.length + 1) 0 stream
        ⟨initHeap (bufSizes cfg), (bufSizes cfg).length⟩ k rec h
    · exact stdoutLoopHeap_content (bufSizes cfg) (stream.length + 1) 0 stream
        ⟨initHeap (bufSizes cfg), (bufSizes cfg).length⟩ (le_refl _) k rec h
  · intro k k' rec rec' hkk h h'
    simp only [spawn_ffmpeg_stdout_run_heap] at h h'
    have h1 := stdoutLoopHeap_addr (bufSizes cfg) (stream.length + 1) 0 stream
      ⟨initHeap (bufSizes cfg), (bufSizes cfg).length⟩ k rec h
    have h2 := stdoutLoopHeap_addr (bufSizes cfg) (stream.length + 1) 0 stream
      ⟨initHeap (bufSizes cfg), (bufSizes cfg).length⟩ k' rec' h'
    simp only at h1 h2
    omega

/-- Witness for C6: the first dispatched frame of a two-trigger run sits at
fresh address 2 and still holds its bytes at the end of the run. -/
theorem C6_buffer_isolation_witness :
    ((0, 2, [1, 2, 3]) : ℕ × ℕ × List ℕ).2.1 = (bufSizes cfgAB).length + 0
    ∧ (spawn_ffmpeg_stdout_run_heap cfgAB
          [1, 2, 3, 4, 5, 6, 7, 8, 9]).2.1.heap
        ((0, 2, [1, 2, 3]) : ℕ × ℕ × List ℕ).2.1
      = ((0, 2, [1, 2, 3]) : ℕ × ℕ × List ℕ).2.2 :=
  (C6_buffer_isolation cfgAB [1, 2, 3, 4, 5, 6, 7, 8, 9]).1 0
    (0, 2, [1, 2, 3]) (by decide)

end Hypetrigger
